import Mathlib

/-!
Verification of the PDCv2 host-side core (register codec, ZPP reducer,
adaptive period optimizer, result rendezvous, configuration validation).

The definitions below are shallow embeddings of the Python source under
`hostApps/python/`:

* `PDC_ZPP`, `PDC_ZPP.setItem`, `PDC_ZPP.process`, `getPdcZPP` model the ZPP
  reducer in `modules/h5Reader.py`;
* `getZppOptimalPeriod` and `waitPoll` model the optimizer helpers in
  `getSpadTcrUcrCcrUsingFlag.py`;
* `getLastH5`/`runPolls` model the artifact rendezvous in
  `modules/h5Reader.py`;
* `validPdcCfg` models the post-configuration check in
  `modules/zynqCtlPdcRoutines.py`;
* `setPdcTimeReg` models the timing-register encoder in
  `modules/pdcHelper.py`.

Python's unbounded ints are modelled by `ℤ`/`ℕ` and float computation by `ℝ`;
an uncaught Python exception (`ZeroDivisionError`, `math.log` domain error) is
modelled by an `Option`-valued result being `none`.
-/

-- =========================================================================
-- Definitions (shallow embedding of the source)
-- =========================================================================

/-- Enumeration `PDC_ZPP_ITEM` of the named ZPP counters in `h5Reader.py`. -/
inductive PDC_ZPP_ITEM where
  | AVG | BIN | LAST | MAX | MIN | NUL | PRD | TOT | NONE
deriving DecidableEq

/-- Raw per-channel ZPP histogram readout: `class PDC_ZPP` in
`modules/h5Reader.py`.  The eight named counters are integers read from the
HDF5 file (or the sentinel `-1` default set by `__init__`), together with the
`empty` flag (`True` on construction, cleared by any successful `setItem`). -/
structure PDC_ZPP where
  empty : Bool
  AVG : ℤ
  BIN : ℤ
  LAST : ℤ
  MAX : ℤ
  MIN : ℤ
  NUL : ℤ
  PRD : ℤ
  TOT : ℤ
deriving DecidableEq

/-- State produced by `PDC_ZPP.__init__`: `empty = True`, all counters `-1`. -/
def PDC_ZPP.init : PDC_ZPP :=
  ⟨true, -1, -1, -1, -1, -1, -1, -1, -1⟩

/-- Model of `PDC_ZPP.setItem(self, item, value)`.  The `value` argument
abstracts the HDF5 dataset access `value[0]` followed by `int(...)`:
`none` models `value is None` (dataset absent), `some none` models the
caught `OverflowError`/`ValueError` of the conversion, and `some (some val)`
models a successful conversion to the integer `val`.  In the first two cases
the method returns without touching any field. -/
def PDC_ZPP.setItem (z : PDC_ZPP) (item : PDC_ZPP_ITEM)
    (value : Option (Option ℤ)) : PDC_ZPP :=
  match value with
  | none => z
  | some none => z
  | some (some val) =>
    match item with
    | .AVG => { z with empty := false, AVG := val }
    | .BIN => { z with empty := false, BIN := val }
    | .LAST => { z with empty := false, LAST := val }
    | .MAX => { z with empty := false, MAX := val }
    | .MIN => { z with empty := false, MIN := val }
    | .NUL => { z with empty := false, NUL := val }
    | .PRD => { z with empty := false, PRD := val }
    | .TOT => { z with empty := false, TOT := val }
    | .NONE => z

/-- Model of `PDC_ZPP.isEmpty`. -/
def PDC_ZPP.isEmpty (z : PDC_ZPP) : Bool :=
  z.empty

/-- Derived rate triple written by `PDC_ZPP.process` into `self.TCR`,
`self.UCR`, `self.CCR` (the spec's `ZppDerived` record). -/
structure ZppDerived where
  TCR : ℝ
  UCR : ℝ
  CCR : ℝ

/-- Value assigned to `self.TCR` on the computing path of `process`:
`(self.TOT/self.BIN)/(10e-9*self.PRD)`. -/
noncomputable def tcrOf (z : PDC_ZPP) : ℝ :=
  ((z.TOT : ℝ) / (z.BIN : ℝ)) / (10e-9 * (z.PRD : ℝ))

/-- Raw uncorrelated rate computed by `process` before the clamp:
`-1*math.log(self.NUL/self.BIN)/(10.0e-9*self.PRD)`. -/
noncomputable def rawUcr (z : PDC_ZPP) : ℝ :=
  -Real.log ((z.NUL : ℝ) / (z.BIN : ℝ)) / (10.0e-9 * (z.PRD : ℝ))

open Classical in
/-- Final `self.CCR` assignment of `process`:
`(TCR-UCR)/TCR` when `TCR > 0 and UCR > 0`, else `-1`. -/
noncomputable def ccrOf (tcr ucr : ℝ) : ℝ :=
  if 0 < tcr ∧ 0 < ucr then (tcr - ucr) / tcr else -1

open Classical in
/-- Model of `PDC_ZPP.process(self)` from `modules/h5Reader.py`, line by line:

* `if self.TOT != -1 and self.BIN != -1 and self.PRD != -1:` compute
  `self.TCR = (self.TOT/self.BIN)/(10e-9*self.PRD)`, `else` set `TCR = -1`;
  a division with `self.BIN == 0` or `self.PRD == 0` raises an uncaught
  `ZeroDivisionError`, modelled by `none`;
* `if self.TCR != -1 and self.NUL > 0:` compute
  `self.UCR = -1*math.log(self.NUL/self.BIN)/(10.0e-9*self.PRD)` and clamp it
  to `-1` when `self.UCR > self.TCR`; `math.log` on a non-positive argument
  raises an uncaught `ValueError`, modelled by `none`; `else` set `UCR = -1`;
* `if self.TCR > 0 and self.UCR > 0:` set `self.CCR = (TCR-UCR)/TCR`,
  `else` set `CCR = -1` (folded into `ccrOf`). -/
noncomputable def PDC_ZPP.process (z : PDC_ZPP) : Option ZppDerived :=
  if z.TOT ≠ -1 ∧ z.BIN ≠ -1 ∧ z.PRD ≠ -1 then
    if z.BIN = 0 ∨ z.PRD = 0 then
      none
    else
      if tcrOf z ≠ -1 ∧ 0 < z.NUL then
        if (z.NUL : ℝ) / (z.BIN : ℝ) ≤ 0 then
          none
        else
          if tcrOf z < rawUcr z then
            some ⟨tcrOf z, -1, ccrOf (tcrOf z) (-1)⟩
          else
            some ⟨tcrOf z, rawUcr z, ccrOf (tcrOf z) (rawUcr z)⟩
      else
        some ⟨tcrOf z, -1, ccrOf (tcrOf z) (-1)⟩
  else
    some ⟨-1, -1, ccrOf (-1) (-1)⟩

/-- Core of `h5Reader.getPdcZPP(self, iPdc, zppSingle, zppList)`: starting
from a fresh `PDC_ZPP()`, call `setItem` for every requested parameter with
the value fetched from the HDF5 tree (abstracted by `lookup`, with the same
encoding as in `setItem`), then return `None` when the object `isEmpty()`. -/
def getPdcZPP (lookup : PDC_ZPP_ITEM → Option (Option ℤ))
    (zppParam : List PDC_ZPP_ITEM) : Option PDC_ZPP :=
  let ZPP := zppParam.foldl (fun z p => z.setItem p (lookup p)) PDC_ZPP.init
  if ZPP.isEmpty then none else some ZPP

/-- Well-formedness of a raw sample per the spec's data model: every counter
is a non-negative integer or the sentinel `-1`. -/
def countersOk (z : PDC_ZPP) : Prop :=
  (0 ≤ z.AVG ∨ z.AVG = -1) ∧ (0 ≤ z.BIN ∨ z.BIN = -1) ∧
  (0 ≤ z.LAST ∨ z.LAST = -1) ∧ (0 ≤ z.MAX ∨ z.MAX = -1) ∧
  (0 ≤ z.MIN ∨ z.MIN = -1) ∧ (0 ≤ z.NUL ∨ z.NUL = -1) ∧
  (0 ≤ z.PRD ∨ z.PRD = -1) ∧ (0 ≤ z.TOT ∨ z.TOT = -1)

/-- The spec's `ZppDerived` invariant: each of the three rates is non-negative
or exactly the sentinel `-1`; `UCR` sentinel forces `CCR` sentinel; `TCR`
sentinel forces both `UCR` and `CCR` sentinel. -/
def sentinelInvariant (d : ZppDerived) : Prop :=
  (0 ≤ d.TCR ∨ d.TCR = -1) ∧ (0 ≤ d.UCR ∨ d.UCR = -1) ∧
  (0 ≤ d.CCR ∨ d.CCR = -1) ∧
  (d.UCR = -1 → d.CCR = -1) ∧ (d.TCR = -1 → d.UCR = -1 ∧ d.CCR = -1)

/-- Condition under which `process` reaches the raw `UCR` computation
(the `math.log` expression is evaluated without raising). -/
noncomputable def ucrBranchTaken (z : PDC_ZPP) : Prop :=
  (z.TOT ≠ -1 ∧ z.BIN ≠ -1 ∧ z.PRD ≠ -1) ∧ ¬(z.BIN = 0 ∨ z.PRD = 0) ∧
  (tcrOf z ≠ -1 ∧ 0 < z.NUL) ∧ ¬((z.NUL : ℝ) / (z.BIN : ℝ) ≤ 0)

/-- Sample with `BIN = 0`, `PRD = 1`, `TOT = 0`: the `TCR` guard of `process`
passes (all three counters differ from `-1`) and `self.TOT/self.BIN` raises
`ZeroDivisionError`. -/
def zppDivZero : PDC_ZPP :=
  ⟨false, -1, 0, -1, -1, -1, -1, 1, 0⟩

/-- Sample with `BIN = 1`, `NUL = 10`, `PRD = 1`, `TOT = 0`: more empty bins
than bins, so the raw `UCR` is negative. -/
def zppNulExceedsBin : PDC_ZPP :=
  ⟨false, -1, 1, -1, -1, -1, 10, 1, 0⟩

/-- Sample with `BIN = 1000`, `NUL = 0`, `PRD = 100`, `TOT = 500`
(the spec's Example 2 shape: `NUL = 0` forces `UCR = CCR = -1`). -/
def zppNoNul : PDC_ZPP :=
  ⟨false, -1, 1000, -1, -1, -1, 0, 100, 500⟩

/-- Sample with `BIN = 1000`, `NUL = 1`, `PRD = 100`, `TOT = 500`: the raw
uncorrelated rate exceeds `TCR`, triggering the clamp to `-1`. -/
def zppUcrClamp : PDC_ZPP :=
  ⟨false, -1, 1000, -1, -1, -1, 1, 100, 500⟩

open Classical in
/-- Accumulated `avgTcrAll` of `getZppOptimalPeriod` before averaging: the sum
over entries with `zpp != None and zpp.TCR != -1`.  Each list entry is `none`
when the per-PDC record is missing, else `some` of its `TCR` field. -/
noncomputable def avgTcrSum (data : List (Option ℝ)) : ℝ :=
  data.foldl
    (fun acc z =>
      match z with
      | some tcr => if tcr ≠ -1 then acc + tcr else acc
      | none => acc)
    0

open Classical in
/-- Accumulated `nb` of `getZppOptimalPeriod`: the number of entries with
`zpp != None and zpp.TCR != -1`. -/
noncomputable def avgTcrCount (data : List (Option ℝ)) : ℕ :=
  data.foldl
    (fun acc z =>
      match z with
      | some tcr => if tcr ≠ -1 then acc + 1 else acc
      | none => acc)
    0

open Classical in
/-- Model of `getZppOptimalPeriod(allPdcsZppData, nSpad)` from
`getSpadTcrUcrCcrUsingFlag.py`: accumulate `avgTcrAll` and `nb` over the
valid records, divide `avgTcrAll` by `nb` only when `nb > 0`, then evaluate
`avgPrdAll = 1.0/avgTcrAll` unconditionally — `none` models the uncaught
`ZeroDivisionError` when `avgTcrAll == 0` (in particular when no record is
valid).  Otherwise the result is `zppPrd = (1.0/avgTcrAll)*nSpad/2.0`. -/
noncomputable def getZppOptimalPeriod (data : List (Option ℝ)) (nSpad : ℝ) :
    Option ℝ :=
  let s := avgTcrSum data
  let nb := avgTcrCount data
  let avgTcrAll := if 0 < nb then s / (nb : ℝ) else s
  if avgTcrAll = 0 then
    none
  else
    let avgPrdAll := 1 / avgTcrAll
    let avgPrd1Spad := avgPrdAll * nSpad
    some (avgPrd1Spad / 2)

/-- Model of the `while 1:` loop of `waitForH5File(timeOutSec=10)`.  Iteration
`n` builds a fresh `h5Reader` whose `getLastH5` outcome is abstracted by
`poll n` (`some path` when a new non-empty file was claimed, `none` when not);
`clock n` is the value of `datetime.datetime.now()` (in seconds) at the
timeout test of iteration `n` and `t0` the start time.  The loop body returns
the claimed handle (`some (some f)`) when `db.newFileReady()`, exits with a
timeout error (`some none`, the `sys.exit()` after the ERROR print) when
`now - t0 > timeOutSec`, and otherwise iterates.  `fuel` bounds the number of
iterations unrolled; `none` means the loop was still running after `fuel`
iterations. -/
def waitPoll (poll : ℕ → Option String) (clock : ℕ → ℚ) (t0 timeOutSec : ℚ) :
    ℕ → ℕ → Option (Option String)
  | 0, _ => none
  | fuel + 1, n =>
    match poll n with
    | some f => some (some f)
    | none =>
      if timeOutSec < clock n - t0 then some none
      else waitPoll poll clock t0 timeOutSec fuel (n + 1)

/-- Helper: Boolean test that `l` begins with `pat` (Python `str.startswith`). -/
def listStartsWith : List Char → List Char → Bool
  | _, [] => true
  | [], _ :: _ => false
  | c :: cs, p :: ps => c == p && listStartsWith cs ps

/-- Helper: Boolean substring test (Python `pat in s`) on character lists. -/
def listHasSub : List Char → List Char → Bool
  | [], pat => pat.isEmpty
  | c :: cs, pat => listStartsWith (c :: cs) pat || listHasSub cs pat

/-- Python `status in line` / `line.startswith(status)` lifted to `String`. -/
def strStartsWith (s pat : String) : Bool :=
  listStartsWith s.toList pat.toList

/-- Python `pat in s` lifted to `String`. -/
def strContains (s pat : String) : Bool :=
  listHasSub s.toList pat.toList

/-- Helper: the suffix of `cs` after the last occurrence of `sep` (the whole
list when `sep` does not occur).  This is `os.path.basename` for `sep = '/'`
and Python `s.split(sep)[-1]` in general. -/
def afterLastChar (sep : Char) : List Char → List Char
  | [] => []
  | c :: cs =>
    if cs.contains sep then afterLastChar sep cs
    else if c == sep then cs
    else c :: afterLastChar sep cs

/-- Model of `os.path.basename`. -/
def basename (p : String) : String :=
  ⟨afterLastChar '/' p.toList⟩

/-- One file reported by `getPathList` (the `ls -1t *.h5` listing): its path
and its `os.path.getsize` result. -/
structure FileEntry where
  path : String
  size : ℕ
deriving DecidableEq

/-- Model of `h5Reader.getLastH5(self)` from `modules/h5Reader.py`.  `files`
is the directory listing of the poll, `seen` the process-wide `parsedH5`
list.  For each file in order: skip it unless `".h5" in fileName`, skip it
when `"CTL_XXX" in fileName`, and when its size is positive and its path is
not yet in `parsedH5`, append the path to `parsedH5` and return it.  When no
file qualifies, return `""` (modelled by `none`) with `parsedH5` unchanged. -/
def getLastH5 : List FileEntry → List String → Option String × List String
  | [], seen => (none, seen)
  | f :: fs, seen =>
    if !strContains (basename f.path) ".h5" then getLastH5 fs seen
    else if strContains (basename f.path) "CTL_XXX" then getLastH5 fs seen
    else if 0 < f.size then
      if !seen.contains f.path then (some f.path, seen ++ [f.path])
      else getLastH5 fs seen
    else getLastH5 fs seen

/-- Repeated polls: run `getLastH5` on each successive directory listing,
threading the process-wide `parsedH5` list, and collect the returned
values. -/
def runPolls :
    List (List FileEntry) → List String → List (Option String) × List String
  | [], seen => ([], seen)
  | poll :: rest, seen =>
    let r := getLastH5 poll seen
    let rr := runPolls rest r.2
    (r.1 :: rr.1, rr.2)

/-- Single poll in which two fresh non-empty eligible files appear at once. -/
def pollsTwoNew : List (List FileEntry) :=
  [[⟨"a.h5", 1⟩, ⟨"b.h5", 1⟩]]

/-- The `statusToValidate` list of `validPdcCfg`, in source order. -/
def statusToValidate : List String :=
  ["BNK_RTN_CLK_ERR",
   "BNK_RTN_DATA_ERR",
   "PDC_CMD_VALID_ERR",
   "PDC_CFG_VALID_ERR",
   "PDC_CFG_CS_ERR",
   "PDC_CFG_VALID_LEN_ERR",
   "GENERAL_STATUS"]

/-- Python `statusLine.split(':')[-1]`: the text after the last colon (the
whole line when it has no colon). -/
def lastField (line : String) : String :=
  ⟨afterLastChar ':' line.toList⟩

/-- Value of a single hexadecimal digit, as accepted by Python `int(_, 16)`. -/
def hexDigitVal (c : Char) : Option ℕ :=
  if '0' ≤ c ∧ c ≤ '9' then some (c.toNat - 48)
  else if 'a' ≤ c ∧ c ≤ 'f' then some (c.toNat - 87)
  else if 'A' ≤ c ∧ c ≤ 'F' then some (c.toNat - 55)
  else none

/-- Accumulating base-16 evaluation of a digit string; `none` on any
non-hex-digit character. -/
def hexDigitsVal : List Char → ℕ → Option ℕ
  | [], acc => some acc
  | c :: cs, acc =>
    match hexDigitVal c with
    | some d => hexDigitsVal cs (acc * 16 + d)
    | none => none

/-- Strip leading and trailing whitespace (Python `int` accepts it). -/
def trimWs (cs : List Char) : List Char :=
  ((cs.dropWhile Char.isWhitespace).reverse.dropWhile Char.isWhitespace).reverse

/-- Magnitude part of Python `int(s, 16)`: an optional `0x`/`0X` marker
followed by at least one hex digit. -/
def parseHexBody : List Char → Option ℕ
  | [] => none
  | '0' :: x :: rest =>
    if x == 'x' || x == 'X' then
      match rest with
      | [] => none
      | _ :: _ => hexDigitsVal rest 0
    else hexDigitsVal ('0' :: x :: rest) 0
  | cs => hexDigitsVal cs 0

/-- Model of Python `int(s, base=16)` for the forms produced by the status
read-back: optional surrounding whitespace, optional sign, optional `0x`
marker, hex digits.  `none` models the `ValueError` raised on any other
input. -/
def parseHexInt (s : String) : Option ℤ :=
  match trimWs s.toList with
  | '-' :: rest => (parseHexBody rest).map (fun n => -(n : ℤ))
  | '+' :: rest => (parseHexBody rest).map (fun n => (n : ℤ))
  | cs => (parseHexBody cs).map (fun n => (n : ℤ))

/-- Possible outcomes of `validPdcCfg`: a normal return, a `sys.exit()`, or
an uncaught exception (`ValueError` from `int`). -/
inductive CfgOutcome where
  | normal | exited | exn
deriving DecidableEq

/-- First status name of `statusToValidate` that `line` starts with, if any
(the inner `for status in statusToValidate` loop with its `break`). -/
def matchedStatus (line : String) : Option String :=
  statusToValidate.find? (fun status => strStartsWith line status)

/-- The stdout scanning loop of `validPdcCfg`: for each line matching a
status name, parse the hex value after the last colon (`exn` on a parse
failure), `sys.exit()` on a non-zero value, and count the matching line;
after the loop, `sys.exit()` unless the count equals the length of
`statusToValidate`. -/
def validStatusLoop : List String → ℕ → CfgOutcome
  | [], nStatusFound =>
    if nStatusFound == statusToValidate.length then .normal else .exited
  | line :: rest, nStatusFound =>
    match matchedStatus line with
    | none => validStatusLoop rest nStatusFound
    | some _ =>
      match parseHexInt (lastField line) with
      | none => .exn
      | some v =>
        if v ≠ 0 then .exited else validStatusLoop rest (nStatusFound + 1)

/-- Model of `initCtlPdcFromClient.validPdcCfg(self)` from
`modules/zynqCtlPdcRoutines.py`: any stderr output from the status command is
fatal (`sys.exit()`); otherwise the stdout lines are scanned by
`validStatusLoop`. -/
def validPdcCfg (stderrLines stdoutLines : List String) : CfgOutcome :=
  if stderrLines.isEmpty then validStatusLoop stdoutLines 0 else .exited

/-- Seven well-formed zero status lines, one per expected flag. -/
def stdoutAllSeven : List String :=
  ["BNK_RTN_CLK_ERR: 0x00000000",
   "BNK_RTN_DATA_ERR: 0x00000000",
   "PDC_CMD_VALID_ERR: 0x00000000",
   "PDC_CFG_VALID_ERR: 0x00000000",
   "PDC_CFG_CS_ERR: 0x00000000",
   "PDC_CFG_VALID_LEN_ERR: 0x00000000",
   "GENERAL_STATUS: 0x00000000"]

/-- Seven zero status lines in which `BNK_RTN_CLK_ERR` appears twice and
`GENERAL_STATUS` does not appear at all. -/
def stdoutDupMissing : List String :=
  ["BNK_RTN_CLK_ERR: 0x00000000",
   "BNK_RTN_CLK_ERR: 0x00000000",
   "BNK_RTN_DATA_ERR: 0x00000000",
   "PDC_CMD_VALID_ERR: 0x00000000",
   "PDC_CFG_VALID_ERR: 0x00000000",
   "PDC_CFG_CS_ERR: 0x00000000",
   "PDC_CFG_VALID_LEN_ERR: 0x00000000"]

/-- Model of `setPdcTimeReg(hold, rech, flag)` from `modules/pdcHelper.py`:
`REG = (hold&0x3F) + ((rech&0x1F)<<6) + ((flag&0x1F)<<11)` over Python's
unbounded signed integers (`&` is `Int.land`, `<<` is `<<<`). -/
def setPdcTimeReg (hold rech flag : ℤ) : ℤ :=
  Int.land hold 0x3F + (Int.land rech 0x1F) <<< (6 : ℤ) +
    (Int.land flag 0x1F) <<< (11 : ℤ)

/-- Modelled from the spec: the Register Codec decoder
`decode(word, fieldName)` "masks and shifts the corresponding bits out"; this
is its instance for the 6-bit `hold` field at offset 0 of the timing
register, `w & 0x3F`. -/
def decodeHold (w : ℤ) : ℤ :=
  Int.land w 0x3F

/-- Modelled from the spec: `decode` for the 5-bit `recharge` field at offset
6 of the timing register, `(w >> 6) & 0x1F`. -/
def decodeRech (w : ℤ) : ℤ :=
  Int.land (w >>> (6 : ℤ)) 0x1F

/-- Modelled from the spec: `decode` for the 5-bit `flag` field at offset 11
of the timing register, `(w >> 11) & 0x1F`. -/
def decodeFlag (w : ℤ) : ℤ :=
  Int.land (w >>> (11 : ℤ)) 0x1F

-- =========================================================================
-- Theorems
-- =========================================================================

/-- Helper: the `CCR` assignment yields the sentinel whenever `UCR` is `-1`. -/
theorem ccrOf_ucr_sentinel (tcr : ℝ) : ccrOf tcr (-1) = -1 := by
  unfold ccrOf
  rw [if_neg]
  rintro ⟨-, h⟩
  norm_num at h

/-- Helper: `e < 1000`, hence `1 < Real.log 1000`. -/
theorem one_lt_log_thousand : (1 : ℝ) < Real.log 1000 := by
  have h1 : Real.exp 1 < 1000 :=
    lt_trans Real.exp_one_lt_d9 (by norm_num)
  calc (1 : ℝ) = Real.log (Real.exp 1) := (Real.log_exp 1).symm
    _ < Real.log 1000 := Real.log_lt_log (Real.exp_pos 1) h1

/-- Helper: `e < 10`, hence `1 < Real.log 10`. -/
theorem one_lt_log_ten : (1 : ℝ) < Real.log 10 := by
  have h1 : Real.exp 1 < 10 :=
    lt_trans Real.exp_one_lt_d9 (by norm_num)
  calc (1 : ℝ) = Real.log (Real.exp 1) := (Real.log_exp 1).symm
    _ < Real.log 10 := Real.log_lt_log (Real.exp_pos 1) h1

/-- C1 (amended): `process` cascades the sentinel exactly when a counter used
by the `TCR` guard equals `-1` (the code tests `!= -1`, not `> 0`): for every
sample with `BIN = -1` or `PRD = -1`, `process` returns normally with
`TCR = UCR = CCR = -1`. -/
theorem process_sentinel_of_bin_or_prd_sentinel (z : PDC_ZPP)
    (h : z.BIN = -1 ∨ z.PRD = -1) :
    z.process = some ⟨-1, -1, -1⟩ := by
  have hcond : ¬(z.TOT ≠ -1 ∧ z.BIN ≠ -1 ∧ z.PRD ≠ -1) := by
    rcases h with h | h <;> simp [h]
  unfold PDC_ZPP.process
  rw [if_neg hcond, ccrOf_ucr_sentinel]

/-- Witness for C1: the freshly initialised sample (all counters `-1`). -/
theorem process_sentinel_of_bin_or_prd_sentinel_witness :
    PDC_ZPP.init.process = some ⟨-1, -1, -1⟩ :=
  process_sentinel_of_bin_or_prd_sentinel PDC_ZPP.init (Or.inl rfl)

/-- Counterexample to C1 as stated: `zppDivZero` has `BIN ≤ 0` (namely
`BIN = 0`, with `PRD = 1 > 0` and `TOT = 0`), yet `process` does not set
`TCR` to the sentinel — it raises `ZeroDivisionError` (`none`). -/
theorem process_sentinel_cascade_cex :
    zppDivZero.BIN ≤ 0 ∧ zppDivZero.process = none := by
  refine ⟨by decide, ?_⟩
  unfold PDC_ZPP.process
  rw [if_pos (by decide), if_pos (by decide)]

/-- C10: a `setItem` call whose value is absent (`None`) or fails integer
conversion leaves the sample unchanged; consequently, when none of the
requested counters are found, `getPdcZPP` returns `None` instead of an
all-sentinel object. -/
theorem setItem_invalid_getPdcZPP_none :
    (∀ (z : PDC_ZPP) (item : PDC_ZPP_ITEM) (value : Option (Option ℤ)),
        value = none ∨ value = some none → z.setItem item value = z) ∧
    (∀ (lookup : PDC_ZPP_ITEM → Option (Option ℤ))
        (ps : List PDC_ZPP_ITEM),
        (∀ p ∈ ps, lookup p = none ∨ lookup p = some none) →
        getPdcZPP lookup ps = none) := by
  have hset : ∀ (z : PDC_ZPP) (item : PDC_ZPP_ITEM)
      (value : Option (Option ℤ)),
      value = none ∨ value = some none → z.setItem item value = z := by
    intro z item value hv
    rcases hv with hv | hv <;> rw [hv] <;> rfl
  refine ⟨hset, ?_⟩
  intro lookup ps hps
  have hfold : ∀ (l : List PDC_ZPP_ITEM) (z : PDC_ZPP),
      (∀ p ∈ l, lookup p = none ∨ lookup p = some none) →
      l.foldl (fun z p => z.setItem p (lookup p)) z = z := by
    intro l
    induction l with
    | nil => intro z _; rfl
    | cons p l ih =>
      intro z hl
      have h1 : z.setItem p (lookup p) = z :=
        hset z p (lookup p) (hl p (by simp))
      simpa [h1] using ih z (fun q hq => hl q (by simp [hq]))
  unfold getPdcZPP
  rw [hfold ps PDC_ZPP.init hps]
  rfl

/-- Witness for C10: a `None` value leaves the fresh sample unchanged, and a
lookup that finds nothing makes `getPdcZPP` return `None`. -/
theorem setItem_invalid_getPdcZPP_none_witness :
    PDC_ZPP.init.setItem PDC_ZPP_ITEM.BIN none = PDC_ZPP.init ∧
    getPdcZPP (fun _ => none) [PDC_ZPP_ITEM.BIN, PDC_ZPP_ITEM.NUL] = none :=
  ⟨setItem_invalid_getPdcZPP_none.1 PDC_ZPP.init PDC_ZPP_ITEM.BIN none
      (Or.inl rfl),
    setItem_invalid_getPdcZPP_none.2 (fun _ => none)
      [PDC_ZPP_ITEM.BIN, PDC_ZPP_ITEM.NUL] (fun _ _ => Or.inl rfl)⟩

/-- C3 (amended): for every well-formed sample (`countersOk`) whose empty-bin
count does not exceed its bin count (`NUL ≤ BIN`, true of any physical ZPP
histogram), any triple actually produced by `process` satisfies the
`ZppDerived` sentinel invariant. -/
theorem process_sentinel_invariant (z : PDC_ZPP) (hok : countersOk z)
    (hnb : z.NUL ≤ z.BIN) (d : ZppDerived) (hp : z.process = some d) :
    sentinelInvariant d := by
  obtain ⟨-, hBok, -, -, -, -, hPok, hTok⟩ := hok
  unfold PDC_ZPP.process at hp
  by_cases h1 : z.TOT ≠ -1 ∧ z.BIN ≠ -1 ∧ z.PRD ≠ -1
  case neg =>
    rw [if_neg h1, ccrOf_ucr_sentinel] at hp
    obtain rfl : (⟨-1, -1, -1⟩ : ZppDerived) = d := Option.some.inj hp
    refine ⟨Or.inr rfl, Or.inr rfl, Or.inr rfl, fun _ => rfl,
      fun _ => ⟨rfl, rfl⟩⟩
  case pos =>
    rw [if_pos h1] at hp
    obtain ⟨hT, hB, hP⟩ := h1
    by_cases h2 : z.BIN = 0 ∨ z.PRD = 0
    · rw [if_pos h2] at hp
      exact absurd hp (by simp)
    · rw [if_neg h2] at hp
      push_neg at h2
      have hBpos : 0 < z.BIN := by
        rcases hBok with h | h
        · rcases lt_or_eq_of_le h with h' | h'
          · exact h'
          · exact absurd h'.symm h2.1
        · exact absurd h hB
      have hPpos : 0 < z.PRD := by
        rcases hPok with h | h
        · rcases lt_or_eq_of_le h with h' | h'
          · exact h'
          · exact absurd h'.symm h2.2
        · exact absurd h hP
      have hTpos : 0 ≤ z.TOT := by
        rcases hTok with h | h
        · exact h
        · exact absurd h hT
      have hBr : (0 : ℝ) < (z.BIN : ℝ) := by exact_mod_cast hBpos
      have hPr : (0 : ℝ) < (z.PRD : ℝ) := by exact_mod_cast hPpos
      have hc : (0 : ℝ) < 10e-9 * (z.PRD : ℝ) := by
        have : (0 : ℝ) < 10e-9 := by norm_num
        positivity
      have htcr : 0 ≤ tcrOf z := by
        unfold tcrOf
        apply div_nonneg _ (le_of_lt hc)
        apply div_nonneg _ (le_of_lt hBr)
        exact_mod_cast hTpos
      have htcrImp : tcrOf z = -1 → False := by
        intro h
        rw [h] at htcr
        norm_num at htcr
      by_cases h3 : tcrOf z ≠ -1 ∧ 0 < z.NUL
      · rw [if_pos h3] at hp
        have hNBpos : 0 < (z.NUL : ℝ) / (z.BIN : ℝ) := by
          apply div_pos _ hBr
          exact_mod_cast h3.2
        rw [if_neg (not_le.mpr hNBpos)] at hp
        have hNB1 : (z.NUL : ℝ) / (z.BIN : ℝ) ≤ 1 := by
          rw [div_le_one hBr]
          exact_mod_cast hnb
        have hraw : 0 ≤ rawUcr z := by
          unfold rawUcr
          apply div_nonneg
          · have hlog := Real.log_nonpos (le_of_lt hNBpos) hNB1
            linarith
          · have : (0 : ℝ) < 10.0e-9 := by norm_num
            positivity
        by_cases h4 : tcrOf z < rawUcr z
        · rw [if_pos h4, ccrOf_ucr_sentinel] at hp
          obtain rfl : (⟨tcrOf z, -1, -1⟩ : ZppDerived) = d := Option.some.inj hp
          exact ⟨Or.inl htcr, Or.inr rfl, Or.inr rfl, fun _ => rfl,
            fun h => absurd h (fun h => htcrImp h)⟩
        · rw [if_neg h4] at hp
          obtain rfl : (⟨tcrOf z, rawUcr z, ccrOf (tcrOf z) (rawUcr z)⟩ :
              ZppDerived) = d := Option.some.inj hp
          have hle : rawUcr z ≤ tcrOf z := le_of_not_lt h4
          have hccr : 0 ≤ ccrOf (tcrOf z) (rawUcr z) ∨
              ccrOf (tcrOf z) (rawUcr z) = -1 := by
            unfold ccrOf
            by_cases h5 : 0 < tcrOf z ∧ 0 < rawUcr z
            · rw [if_pos h5]
              left
              apply div_nonneg _ (le_of_lt h5.1)
              linarith
            · rw [if_neg h5]
              right
              rfl
          refine ⟨Or.inl htcr, Or.inl hraw, hccr, ?_, ?_⟩
          · intro h
            have hu : rawUcr z = -1 := h
            show ccrOf (tcrOf z) (rawUcr z) = -1
            unfold ccrOf
            rw [if_neg]
            rintro ⟨-, h'⟩
            rw [hu] at h'
            norm_num at h'
          · intro h
            exact absurd h (fun h => htcrImp h)
      · rw [if_neg h3, ccrOf_ucr_sentinel] at hp
        obtain rfl : (⟨tcrOf z, -1, -1⟩ : ZppDerived) = d := Option.some.inj hp
        exact ⟨Or.inl htcr, Or.inr rfl, Or.inr rfl, fun _ => rfl,
          fun h => absurd h (fun h => htcrImp h)⟩

/-- Witness for C3: the `NUL = 0` sample (`zppNoNul`) yields
`⟨TCR, -1, -1⟩`, which satisfies the invariant. -/
theorem process_sentinel_invariant_witness :
    sentinelInvariant ⟨tcrOf zppNoNul, -1, -1⟩ := by
  apply process_sentinel_invariant zppNoNul
  · unfold countersOk
    decide
  · decide
  · unfold PDC_ZPP.process
    rw [if_pos (by decide), if_neg (by decide), if_neg, ccrOf_ucr_sentinel]
    rintro ⟨-, h⟩
    revert h
    decide

/-- Counterexample to C3 as stated: `zppNulExceedsBin` has every counter a
non-negative integer or `-1`, yet `process` reports
`UCR = -log 10 / (10.0e-9 * 1) < 0`, which is neither non-negative nor the
sentinel `-1`. -/
theorem process_sentinel_invariant_cex :
    countersOk zppNulExceedsBin ∧
    zppNulExceedsBin.process =
      some ⟨tcrOf zppNulExceedsBin, rawUcr zppNulExceedsBin, -1⟩ ∧
    rawUcr zppNulExceedsBin < 0 ∧ rawUcr zppNulExceedsBin ≠ -1 := by
  have hlog : (1 : ℝ) < Real.log 10 := one_lt_log_ten
  have hraw : rawUcr zppNulExceedsBin = -Real.log 10 / 10.0e-9 := by
    unfold rawUcr zppNulExceedsBin
    norm_num
  have hrawneg : rawUcr zppNulExceedsBin < 0 := by
    rw [hraw]
    apply div_neg_of_neg_of_pos _ (by norm_num)
    linarith
  have htcr : tcrOf zppNulExceedsBin = 0 := by
    unfold tcrOf zppNulExceedsBin
    norm_num
  refine ⟨by unfold countersOk; decide, ?_, hrawneg, ?_⟩
  · have hcond : tcrOf zppNulExceedsBin ≠ -1 ∧ 0 < zppNulExceedsBin.NUL := by
      constructor
      · rw [htcr]
        norm_num
      · decide
    have hndom : ¬((zppNulExceedsBin.NUL : ℝ) / (zppNulExceedsBin.BIN : ℝ) ≤ 0) := by
      norm_num [zppNulExceedsBin]
    have hnlt : ¬(tcrOf zppNulExceedsBin < rawUcr zppNulExceedsBin) := by
      rw [htcr]
      intro h
      linarith
    have hccr : ccrOf (tcrOf zppNulExceedsBin) (rawUcr zppNulExceedsBin) = -1 := by
      unfold ccrOf
      rw [if_neg]
      rintro ⟨h, -⟩
      rw [htcr] at h
      norm_num at h
    unfold PDC_ZPP.process
    rw [if_pos (by decide), if_neg (by decide), if_pos hcond, if_neg hndom,
      if_neg hnlt, hccr]
  · rw [hraw]
    intro h
    rw [div_eq_iff (by norm_num : (10.0e-9 : ℝ) ≠ 0)] at h
    norm_num at h
    linarith

/-- C4: whenever `process` evaluates the raw uncorrelated rate and it exceeds
the computed `TCR`, the reported `UCR` is the sentinel `-1`; consequently a
reported non-sentinel `UCR` is never greater than the reported `TCR`. -/
theorem process_ucr_clamp (z : PDC_ZPP) (d : ZppDerived)
    (hp : z.process = some d) :
    (ucrBranchTaken z → tcrOf z < rawUcr z → d.UCR = -1) ∧
    (d.UCR ≠ -1 → d.UCR ≤ d.TCR) := by
  unfold PDC_ZPP.process at hp
  by_cases h1 : z.TOT ≠ -1 ∧ z.BIN ≠ -1 ∧ z.PRD ≠ -1
  case neg =>
    rw [if_neg h1, ccrOf_ucr_sentinel] at hp
    obtain rfl : (⟨-1, -1, -1⟩ : ZppDerived) = d := Option.some.inj hp
    exact ⟨fun _ _ => rfl, fun h => absurd rfl h⟩
  case pos =>
    rw [if_pos h1] at hp
    by_cases h2 : z.BIN = 0 ∨ z.PRD = 0
    · rw [if_pos h2] at hp
      exact absurd hp (by simp)
    · rw [if_neg h2] at hp
      by_cases h3 : tcrOf z ≠ -1 ∧ 0 < z.NUL
      · rw [if_pos h3] at hp
        by_cases h5 : (z.NUL : ℝ) / (z.BIN : ℝ) ≤ 0
        · rw [if_pos h5] at hp
          exact absurd hp (by simp)
        · rw [if_neg h5] at hp
          by_cases h4 : tcrOf z < rawUcr z
          · rw [if_pos h4, ccrOf_ucr_sentinel] at hp
            obtain rfl : (⟨tcrOf z, -1, -1⟩ : ZppDerived) = d :=
              Option.some.inj hp
            exact ⟨fun _ _ => rfl, fun h => absurd rfl h⟩
          · rw [if_neg h4] at hp
            obtain rfl : (⟨tcrOf z, rawUcr z, ccrOf (tcrOf z) (rawUcr z)⟩ :
                ZppDerived) = d := Option.some.inj hp
            exact ⟨fun _ hlt => absurd hlt h4, fun _ => le_of_not_lt h4⟩
      · rw [if_neg h3, ccrOf_ucr_sentinel] at hp
        obtain rfl : (⟨tcrOf z, -1, -1⟩ : ZppDerived) = d := Option.some.inj hp
        refine ⟨fun hb _ => rfl, fun h => absurd rfl h⟩

/-- Witness for C4: on `zppUcrClamp` the raw rate
`-log(1/1000)/(10.0e-9*100) = 10^6 * log 1000` exceeds
`TCR = 500000`, and `process` indeed reports `UCR = -1`. -/
theorem process_ucr_clamp_witness :
    (ucrBranchTaken zppUcrClamp →
      tcrOf zppUcrClamp < rawUcr zppUcrClamp →
      (⟨tcrOf zppUcrClamp, -1, -1⟩ : ZppDerived).UCR = -1) ∧
    ((⟨tcrOf zppUcrClamp, -1, -1⟩ : ZppDerived).UCR ≠ -1 →
      (⟨tcrOf zppUcrClamp, -1, -1⟩ : ZppDerived).UCR ≤
        (⟨tcrOf zppUcrClamp, -1, -1⟩ : ZppDerived).TCR) := by
  apply process_ucr_clamp zppUcrClamp
  have htcr : tcrOf zppUcrClamp = 500000 := by
    unfold tcrOf zppUcrClamp
    norm_num
  have hraw : rawUcr zppUcrClamp = Real.log 1000 / 10.0e-7 := by
    unfold rawUcr zppUcrClamp
    push_cast
    rw [show ((1 : ℝ) / 1000) = (1000 : ℝ)⁻¹ by norm_num, Real.log_inv]
    ring_nf
  have hlt : tcrOf zppUcrClamp < rawUcr zppUcrClamp := by
    rw [htcr, hraw]
    rw [lt_div_iff₀ (by norm_num : (0 : ℝ) < 10.0e-7)]
    have := one_lt_log_thousand
    linarith
  have hcond : tcrOf zppUcrClamp ≠ -1 ∧ 0 < zppUcrClamp.NUL := by
    constructor
    · rw [htcr]
      norm_num
    · decide
  have hndom : ¬((zppUcrClamp.NUL : ℝ) / (zppUcrClamp.BIN : ℝ) ≤ 0) := by
    norm_num [zppUcrClamp]
  unfold PDC_ZPP.process
  rw [if_pos (by decide), if_neg (by decide), if_pos hcond, if_neg hndom,
    if_pos hlt, ccrOf_ucr_sentinel]

/-- C2 (amended): the `nb > 0` test in `getZppOptimalPeriod` guards only the
averaging division; with zero valid channels (every record missing or with
sentinel `TCR`) the accumulated `avgTcrAll` stays `0` and the unguarded
`avgPrdAll = 1.0/avgTcrAll` raises `ZeroDivisionError` — the channel is not
reported-and-skipped. -/
theorem getZppOptimalPeriod_all_invalid (data : List (Option ℝ)) (nSpad : ℝ)
    (h : ∀ z ∈ data, z = none ∨ z = some (-1)) :
    getZppOptimalPeriod data nSpad = none := by
  have hsum : avgTcrSum data = 0 := by
    unfold avgTcrSum
    have : ∀ (l : List (Option ℝ)) (acc : ℝ),
        (∀ z ∈ l, z = none ∨ z = some (-1)) →
        l.foldl
          (fun acc z =>
            match z with
            | some tcr => if tcr ≠ -1 then acc + tcr else acc
            | none => acc)
          acc = acc := by
      intro l
      induction l with
      | nil => intro acc _; rfl
      | cons z l ih =>
        intro acc hl
        rcases hl z (by simp) with rfl | rfl
        · exact ih acc (fun q hq => hl q (by simp [hq]))
        · have hstep : (if (-1 : ℝ) ≠ -1 then acc + (-1) else acc) = acc := by
            rw [if_neg]
            simp
          simp only [List.foldl_cons, hstep]
          exact ih acc (fun q hq => hl q (by simp [hq]))
    exact this data 0 h
  have hcnt : avgTcrCount data = 0 := by
    unfold avgTcrCount
    have : ∀ (l : List (Option ℝ)) (acc : ℕ),
        (∀ z ∈ l, z = none ∨ z = some (-1)) →
        l.foldl
          (fun acc z =>
            match z with
            | some tcr => if tcr ≠ -1 then acc + 1 else acc
            | none => acc)
          acc = acc := by
      intro l
      induction l with
      | nil => intro acc _; rfl
      | cons z l ih =>
        intro acc hl
        rcases hl z (by simp) with rfl | rfl
        · exact ih acc (fun q hq => hl q (by simp [hq]))
        · have hstep : (if (-1 : ℝ) ≠ -1 then acc + 1 else acc) = acc := by
            rw [if_neg]
            simp
          simp only [List.foldl_cons, hstep]
          exact ih acc (fun q hq => hl q (by simp [hq]))
    exact this data 0 h
  unfold getZppOptimalPeriod
  rw [hsum, hcnt]
  norm_num

/-- Witness for C2: one missing record and one sentinel record. -/
theorem getZppOptimalPeriod_all_invalid_witness :
    getZppOptimalPeriod [none, some (-1)] 64 = none := by
  apply getZppOptimalPeriod_all_invalid
  intro z hz
  simp only [List.mem_cons, List.not_mem_nil, or_false] at hz
  rcases hz with rfl | rfl
  · exact Or.inl rfl
  · exact Or.inr rfl

/-- Counterexample to C2 as stated: on a one-channel input whose record is
missing, `getZppOptimalPeriod` does not report-and-skip: it evaluates
`1.0/avgTcrAll` with `avgTcrAll = 0`, i.e. raises `ZeroDivisionError`
(modelled by `none`). -/
theorem getZppOptimalPeriod_guard_cex :
    getZppOptimalPeriod [none] 64 = none := by
  unfold getZppOptimalPeriod
  have hs : avgTcrSum [none] = 0 := rfl
  have hn : avgTcrCount [none] = 0 := rfl
  rw [hs, hn]
  norm_num

/-- Helper: with no file ever appearing, the loop exits with the timeout
error within `d + 1` iterations as soon as the clock at iteration `k + d`
exceeds the deadline. -/
theorem waitPoll_timeout_aux (poll : ℕ → Option String) (clock : ℕ → ℚ)
    (t0 timeOutSec : ℚ) (hpoll : ∀ n, poll n = none) :
    ∀ d k, timeOutSec < clock (k + d) - t0 →
      waitPoll poll clock t0 timeOutSec (d + 1) k = some none := by
  intro d
  induction d with
  | zero =>
    intro k hk
    unfold waitPoll
    rw [hpoll k]
    simp only
    rw [if_pos (by simpa using hk)]
  | succ d ih =>
    intro k hk
    unfold waitPoll
    rw [hpoll k]
    simp only
    by_cases h : timeOutSec < clock k - t0
    · rw [if_pos h]
    · rw [if_neg h]
      apply ih (k + 1)
      have : k + 1 + d = k + (d + 1) := by omega
      rw [this]
      exact hk

/-- Helper: if the first `d` iterations see no file and no timeout, and
iteration `k + d` sees a file, the loop returns that handle. -/
theorem waitPoll_file_aux (poll : ℕ → Option String) (clock : ℕ → ℚ)
    (t0 timeOutSec : ℚ) :
    ∀ d k f,
      (∀ m, k ≤ m → m < k + d → poll m = none ∧ clock m - t0 ≤ timeOutSec) →
      poll (k + d) = some f →
      waitPoll poll clock t0 timeOutSec (d + 1) k = some (some f) := by
  intro d
  induction d with
  | zero =>
    intro k f _ hf
    unfold waitPoll
    rw [show k + 0 = k by omega] at hf
    rw [hf]
  | succ d ih =>
    intro k f hm hf
    have hk := hm k (le_refl k) (by omega)
    unfold waitPoll
    rw [hk.1]
    simp only
    rw [if_neg (not_lt.mpr hk.2)]
    apply ih (k + 1) f
    · intro m hm1 hm2
      exact hm m (by omega) (by omega)
    · have : k + 1 + d = k + (d + 1) := by omega
      rw [this]
      exact hf

/-- C8: the result-file wait never blocks indefinitely.  If no new non-empty
file ever becomes available, the loop terminates with the timeout failure
once the clock passes `t0 + timeOutSec`; and if a file appears before the
deadline, the claimed handle is returned instead. -/
theorem waitForH5File_terminates (poll : ℕ → Option String) (clock : ℕ → ℚ)
    (t0 timeOutSec : ℚ) :
    ((∀ n, poll n = none) → (∃ N, timeOutSec < clock N - t0) →
      ∃ fuel, waitPoll poll clock t0 timeOutSec fuel 0 = some none) ∧
    (∀ n f,
      (∀ m, m < n → poll m = none ∧ clock m - t0 ≤ timeOutSec) →
      poll n = some f →
      ∃ fuel, waitPoll poll clock t0 timeOutSec fuel 0 = some (some f)) := by
  constructor
  · rintro hpoll ⟨N, hN⟩
    exact ⟨N + 1, waitPoll_timeout_aux poll clock t0 timeOutSec hpoll N 0
      (by simpa using hN)⟩
  · intro n f hm hf
    refine ⟨n + 1, waitPoll_file_aux poll clock t0 timeOutSec n 0 f ?_
      (by simpa using hf)⟩
    intro m _ hm2
    exact hm m (by omega)

/-- Witness for C8: with the default 10-second timeout, a clock ticking one
second per iteration, and no file ever appearing, the loop exits with the
timeout failure. -/
theorem waitForH5File_terminates_witness :
    ∃ fuel,
      waitPoll (fun _ => none) (fun n => (n : ℚ)) 0 10 fuel 0 = some none :=
  (waitForH5File_terminates (fun _ => none) (fun n => (n : ℚ)) 0 10).1
    (fun _ => rfl) ⟨11, by norm_num⟩

/-- Helper: membership in `parsedH5` is preserved by a `getLastH5` call. -/
theorem getLastH5_seen_mono (files : List FileEntry) (seen : List String)
    (p : String) (hp : p ∈ seen) : p ∈ (getLastH5 files seen).2 := by
  induction files generalizing seen with
  | nil => exact hp
  | cons f fs ih =>
    unfold getLastH5
    split
    · exact ih seen hp
    · split
      · exact ih seen hp
      · split
        · split
          · show p ∈ seen ++ [f.path]
            exact List.mem_append_left _ hp
          · exact ih seen hp
        · exact ih seen hp

/-- Helper: characterisation of one `getLastH5` call: on `none` the
`parsedH5` list is unchanged; a returned path was not previously in
`parsedH5` and is appended to it. -/
theorem getLastH5_spec (files : List FileEntry) :
    ∀ (seen : List String) (r : Option String) (s' : List String),
      getLastH5 files seen = (r, s') →
      (r = none → s' = seen) ∧
      (∀ p, r = some p → p ∉ seen ∧ s' = seen ++ [p]) := by
  induction files with
  | nil =>
    intro seen r s' h
    unfold getLastH5 at h
    obtain ⟨rfl, rfl⟩ : none = r ∧ seen = s' := by
      constructor <;> [exact congrArg Prod.fst h; exact congrArg Prod.snd h]
    exact ⟨fun _ => rfl, fun p hp => absurd hp (by simp)⟩
  | cons f fs ih =>
    intro seen r s' h
    unfold getLastH5 at h
    split at h
    · exact ih seen r s' h
    · split at h
      · exact ih seen r s' h
      · split at h
        · split at h
          case isTrue h4 =>
            obtain ⟨rfl, rfl⟩ : some f.path = r ∧ seen ++ [f.path] = s' := by
              constructor <;> [exact congrArg Prod.fst h;
                exact congrArg Prod.snd h]
            refine ⟨fun hc => by simp at hc, ?_⟩
            rintro p hp
            obtain rfl : f.path = p := by simpa using hp
            refine ⟨?_, rfl⟩
            simpa using h4
          case isFalse h4 =>
            exact ih seen r s' h
        · exact ih seen r s' h

/-- Helper: a path already recorded in `parsedH5` is never returned by any
later poll. -/
theorem runPolls_none_of_seen (polls : List (List FileEntry))
    (seen : List String) (p : String) (hp : p ∈ seen) :
    (runPolls polls seen).1.count (some p) = 0 := by
  induction polls generalizing seen with
  | nil => rfl
  | cons poll rest ih =>
    unfold runPolls
    simp only
    rw [List.count_cons]
    have hrest : (runPolls rest (getLastH5 poll seen).2).1.count (some p) = 0 :=
      ih (getLastH5 poll seen).2 (getLastH5_seen_mono poll seen p hp)
    rw [hrest]
    rcases hr : (getLastH5 poll seen).1 with - | q
    · simp
    · have hq := (getLastH5_spec poll seen (getLastH5 poll seen).1
        (getLastH5 poll seen).2 rfl).2 q hr
      have hqp : q ≠ p := fun hqe => hq.1 (hqe ▸ hp)
      simp [hqp]

/-- Helper: across any sequence of polls, any fixed path is returned at most
once. -/
theorem runPolls_count_le_one (polls : List (List FileEntry))
    (seen : List String) (p : String) :
    (runPolls polls seen).1.count (some p) ≤ 1 := by
  induction polls generalizing seen with
  | nil => simp [runPolls]
  | cons poll rest ih =>
    unfold runPolls
    simp only
    rw [List.count_cons]
    rcases hr : (getLastH5 poll seen).1 with - | q
    · simpa using ih (getLastH5 poll seen).2
    · by_cases hqp : q = p
      · subst hqp
        have hq := (getLastH5_spec poll seen (getLastH5 poll seen).1
          (getLastH5 poll seen).2 rfl).2 q hr
        have hmem : q ∈ (getLastH5 poll seen).2 := by
          rw [hq.2]
          simp
        have h0 := runPolls_none_of_seen rest (getLastH5 poll seen).2 q hmem
        simp [h0]
      · simpa [hqp] using ih (getLastH5 poll seen).2

/-- C6 (amended): each distinct path is claimed at most once: a path returned
by `getLastH5` was not in the process-wide `parsedH5` list before the call
and is recorded in it by the call, and across any sequence of polls starting
from the initial empty `parsedH5` a given path appears among the returned
values at most once.  (Exactly-once delivery of every appearing artifact does
not hold: a call returns only the first eligible unseen file of its poll.) -/
theorem getLastH5_at_most_once :
    (∀ (files : List FileEntry) (seen : List String) (p : String),
      (getLastH5 files seen).1 = some p →
      p ∉ seen ∧ p ∈ (getLastH5 files seen).2) ∧
    (∀ (polls : List (List FileEntry)) (p : String),
      (runPolls polls []).1.count (some p) ≤ 1) := by
  constructor
  · intro files seen p hp
    have h := (getLastH5_spec files seen (getLastH5 files seen).1
      (getLastH5 files seen).2 rfl).2 p hp
    refine ⟨h.1, ?_⟩
    rw [h.2]
    simp
  · intro polls p
    exact runPolls_count_le_one polls [] p

/-- Witness for C6: a single new non-empty file is claimed and recorded. -/
theorem getLastH5_at_most_once_witness :
    ("a.h5" ∉ ([] : List String) ∧
      "a.h5" ∈ (getLastH5 [⟨"a.h5", 1⟩] []).2) ∧
    (runPolls pollsTwoNew []).1.count (some "a.h5") ≤ 1 :=
  ⟨getLastH5_at_most_once.1 [⟨"a.h5", 1⟩] [] "a.h5" (by decide),
    getLastH5_at_most_once.2 pollsTwoNew "a.h5"⟩

/-- Counterexample to C6 as stated: in a lifetime consisting of one poll in
which two distinct eligible non-empty files `a.h5` and `b.h5` both appear,
only `a.h5` is ever returned; `b.h5` appears non-empty and eligible yet is
returned zero times, not exactly once. -/
theorem getLastH5_exactly_once_cex :
    (runPolls pollsTwoNew []).1 = [some "a.h5"] ∧
    strContains (basename "b.h5") ".h5" = true ∧
    strContains (basename "b.h5") "CTL_XXX" = false ∧
    (runPolls pollsTwoNew []).1.count (some "b.h5") = 0 := by
  decide

/-- Helper: a normal return of the scanning loop forces every matching line
to parse to zero, and the number of matching lines (with multiplicity) to
make the count reach `statusToValidate.length`. -/
theorem validStatusLoop_normal :
    ∀ (o : List String) (n : ℕ),
      validStatusLoop o n = .normal →
      n + o.countP (fun l => (matchedStatus l).isSome) =
        statusToValidate.length ∧
      ∀ l ∈ o, (matchedStatus l).isSome →
        parseHexInt (lastField l) = some 0 := by
  intro o
  induction o with
  | nil =>
    intro n h
    unfold validStatusLoop at h
    constructor
    · by_cases hn : (n == statusToValidate.length) = true
      · have hn2 : n = statusToValidate.length := by simpa using hn
        simpa using hn2
      · rw [if_neg hn] at h
        exact absurd h (by simp)
    · intro l hl
      exact absurd hl (by simp)
  | cons line rest ih =>
    intro n h
    unfold validStatusLoop at h
    split at h
    · rename_i hm
      have hrec := ih n h
      refine ⟨?_, ?_⟩
      · simpa [List.countP_cons, hm] using hrec.1
      · intro l hl hsome
        rcases List.mem_cons.mp hl with rfl | hl
        · rw [hm] at hsome
          exact absurd hsome (by simp)
        · exact hrec.2 l hl hsome
    · rename_i s hm
      split at h
      · exact absurd h (by simp)
      · rename_i v hv
        by_cases hz : v ≠ 0
        · rw [if_pos hz] at h
          exact absurd h (by simp)
        · rw [if_neg hz] at h
          push_neg at hz
          subst hz
          have hrec := ih (n + 1) h
          refine ⟨?_, ?_⟩
          · have hcnt := hrec.1
            rw [List.countP_cons]
            simp only [hm, Option.isSome_some, if_pos]
            omega
          · intro l hl hsome
            rcases List.mem_cons.mp hl with rfl | hl
            · exact hv
            · exact hrec.2 l hl hsome

/-- C7 (amended): `validPdcCfg` returns normally only when the status command
produced no stderr output, every stdout line matching one of the seven
expected flags parses to exactly zero, and the number of matching lines
(counted with multiplicity, not as distinct flags) equals seven.  Duplicated
flag lines can stand in for a missing flag, so a normal return does not
guarantee that every one of the seven flags was actually found. -/
theorem validPdcCfg_normal_conditions (e o : List String)
    (h : validPdcCfg e o = .normal) :
    e = [] ∧
    o.countP (fun l => (matchedStatus l).isSome) = statusToValidate.length ∧
    ∀ l ∈ o, (matchedStatus l).isSome →
      parseHexInt (lastField l) = some 0 := by
  unfold validPdcCfg at h
  by_cases he : e.isEmpty
  · rw [if_pos he] at h
    have hloop := validStatusLoop_normal o 0 h
    exact ⟨List.isEmpty_iff.mp he, by simpa using hloop.1, hloop.2⟩
  · rw [if_neg he] at h
    exact absurd h (by simp)

/-- Witness for C7: the well-formed all-zero status output returns normally,
and the necessary conditions follow. -/
theorem validPdcCfg_normal_conditions_witness :
    ([] : List String) = [] ∧
    stdoutAllSeven.countP (fun l => (matchedStatus l).isSome) =
      statusToValidate.length ∧
    ∀ l ∈ stdoutAllSeven, (matchedStatus l).isSome →
      parseHexInt (lastField l) = some 0 :=
  validPdcCfg_normal_conditions [] stdoutAllSeven (by decide)

/-- Counterexample to C7 as stated: with a duplicated `BNK_RTN_CLK_ERR` line
and no `GENERAL_STATUS` line at all, `validPdcCfg` still returns normally —
the flag `GENERAL_STATUS` is not found in the output, yet the run is not
aborted. -/
theorem validPdcCfg_missing_flag_cex :
    validPdcCfg [] stdoutDupMissing = CfgOutcome.normal ∧
    stdoutDupMissing.countP (fun l => strStartsWith l "GENERAL_STATUS") = 0 := by
  decide

/-- Helper: `Nat.ldiff` against the 6-bit mask in arithmetic form. -/
theorem nat_ldiff_63 (m : ℕ) : Nat.ldiff 63 m = 63 - m % 64 := by
  have hm : m % 64 < 64 := Nat.mod_lt _ (by norm_num)
  have hx : 63 - m % 64 = 63 ^^^ m % 64 := by
    have h : ∀ a, a < 64 → 63 - a = 63 ^^^ a := by decide
    exact h _ hm
  rw [hx]
  apply Nat.eq_of_testBit_eq
  intro i
  rw [Nat.testBit_ldiff, Nat.testBit_xor]
  rw [show (64 : ℕ) = 2 ^ 6 by norm_num, Nat.testBit_mod_two_pow]
  rcases Nat.lt_or_ge i 6 with h | h
  · have h63 : Nat.testBit 63 i = true := by
      have hall : ∀ j, j < 6 → Nat.testBit 63 j = true := by decide
      exact hall i h
    simp [h63, h]
  · have h2 : (63 : ℕ) < 2 ^ i :=
      lt_of_lt_of_le (by norm_num) (Nat.pow_le_pow_right (by norm_num) h)
    have h63 : Nat.testBit 63 i = false := Nat.testBit_lt_two_pow h2
    have h6 : ¬(i < 6) := by omega
    simp [h63, h6]

/-- Helper: `Nat.ldiff` against the 5-bit mask in arithmetic form. -/
theorem nat_ldiff_31 (m : ℕ) : Nat.ldiff 31 m = 31 - m % 32 := by
  have hm : m % 32 < 32 := Nat.mod_lt _ (by norm_num)
  have hx : 31 - m % 32 = 31 ^^^ m % 32 := by
    have h : ∀ a, a < 32 → 31 - a = 31 ^^^ a := by decide
    exact h _ hm
  rw [hx]
  apply Nat.eq_of_testBit_eq
  intro i
  rw [Nat.testBit_ldiff, Nat.testBit_xor]
  rw [show (32 : ℕ) = 2 ^ 5 by norm_num, Nat.testBit_mod_two_pow]
  rcases Nat.lt_or_ge i 5 with h | h
  · have h31 : Nat.testBit 31 i = true := by
      have hall : ∀ j, j < 5 → Nat.testBit 31 j = true := by decide
      exact hall i h
    simp [h31, h]
  · have h2 : (31 : ℕ) < 2 ^ i :=
      lt_of_lt_of_le (by norm_num) (Nat.pow_le_pow_right (by norm_num) h)
    have h31 : Nat.testBit 31 i = false := Nat.testBit_lt_two_pow h2
    have h5 : ¬(i < 5) := by omega
    simp [h31, h5]

/-- Helper: Python `x & 0x3F` on an arbitrary integer is `x mod 64`. -/
theorem int_land_63 (x : ℤ) : Int.land x 63 = x % 64 := by
  cases x with
  | ofNat n =>
    show Int.ofNat (n &&& 63) = Int.ofNat n % 64
    have h : n &&& 63 = n % 64 := by
      simpa using Nat.and_pow_two_sub_one_eq_mod n 6
    rw [h]
    simp only [Int.ofNat_eq_natCast]
    omega
  | negSucc m =>
    show Int.ofNat (Nat.ldiff 63 m) = Int.negSucc m % 64
    rw [nat_ldiff_63, Int.negSucc_eq]
    simp only [Int.ofNat_eq_natCast]
    omega

/-- Helper: Python `x & 0x1F` on an arbitrary integer is `x mod 32`. -/
theorem int_land_31 (x : ℤ) : Int.land x 31 = x % 32 := by
  cases x with
  | ofNat n =>
    show Int.ofNat (n &&& 31) = Int.ofNat n % 32
    have h : n &&& 31 = n % 32 := by
      simpa using Nat.and_pow_two_sub_one_eq_mod n 5
    rw [h]
    simp only [Int.ofNat_eq_natCast]
    omega
  | negSucc m =>
    show Int.ofNat (Nat.ldiff 31 m) = Int.negSucc m % 32
    rw [nat_ldiff_31, Int.negSucc_eq]
    simp only [Int.ofNat_eq_natCast]
    omega

/-- Helper: left shift by 6 is multiplication by 64. -/
theorem int_shiftLeft_6 (x : ℤ) : x <<< (6 : ℤ) = x * 64 := by
  have h : x <<< ((6 : ℤ)) = x * ((2 ^ 6 : ℕ) : ℤ) :=
    Int.shiftLeft_eq_mul_pow x 6
  rw [h]
  norm_num

/-- Helper: left shift by 11 is multiplication by 2048. -/
theorem int_shiftLeft_11 (x : ℤ) : x <<< (11 : ℤ) = x * 2048 := by
  have h : x <<< ((11 : ℤ)) = x * ((2 ^ 11 : ℕ) : ℤ) :=
    Int.shiftLeft_eq_mul_pow x 11
  rw [h]
  norm_num

/-- Helper: right shift by 6 of a non-negative integer is division by 64. -/
theorem int_shiftRight_6 (x : ℤ) (hx : 0 ≤ x) : x >>> (6 : ℤ) = x / 64 := by
  obtain ⟨m, rfl⟩ := Int.eq_ofNat_of_zero_le hx
  have h : ((m : ℤ)) >>> ((6 : ℤ)) = ((m >>> 6 : ℕ) : ℤ) :=
    Int.shiftRight_coe_nat m 6
  rw [h, Nat.shiftRight_eq_div_pow, show (2 : ℕ) ^ 6 = 64 from rfl]
  omega

/-- Helper: right shift by 11 of a non-negative integer is division by
2048. -/
theorem int_shiftRight_11 (x : ℤ) (hx : 0 ≤ x) :
    x >>> (11 : ℤ) = x / 2048 := by
  obtain ⟨m, rfl⟩ := Int.eq_ofNat_of_zero_le hx
  have h : ((m : ℤ)) >>> ((11 : ℤ)) = ((m >>> 11 : ℕ) : ℤ) :=
    Int.shiftRight_coe_nat m 11
  rw [h, Nat.shiftRight_eq_div_pow, show (2 : ℕ) ^ 11 = 2048 from rfl]
  omega

/-- C5: for all integers, the timing-register encoder masks each field to its
width and places it at its offset: the result is
`hold mod 2^6 + (rech mod 2^5)*2^6 + (flag mod 2^5)*2^11`, so out-of-range
inputs are silently truncated modulo the field width; in particular
`setPdcTimeReg 50 10 2 = 50 + 10*64 + 2*2048 = 4786`. -/
theorem setPdcTimeReg_packs :
    (∀ hold rech flag : ℤ,
      setPdcTimeReg hold rech flag =
        hold % 2 ^ 6 + rech % 2 ^ 5 * 2 ^ 6 + flag % 2 ^ 5 * 2 ^ 11) ∧
    setPdcTimeReg 50 10 2 = 4786 := by
  have hmain : ∀ hold rech flag : ℤ,
      setPdcTimeReg hold rech flag =
        hold % 2 ^ 6 + rech % 2 ^ 5 * 2 ^ 6 + flag % 2 ^ 5 * 2 ^ 11 := by
    intro hold rech flag
    unfold setPdcTimeReg
    rw [int_shiftLeft_6, int_shiftLeft_11, int_land_63, int_land_31,
      int_land_31]
    norm_num
  refine ⟨hmain, ?_⟩
  rw [hmain]
  decide

/-- C9: round-trip — decoding each documented field of an encoded timing
register recovers the original in-range field values. -/
theorem setPdcTimeReg_roundTrip (hold rech flag : ℤ)
    (hh0 : 0 ≤ hold) (hh1 : hold < 2 ^ 6)
    (hr0 : 0 ≤ rech) (hr1 : rech < 2 ^ 5)
    (hf0 : 0 ≤ flag) (hf1 : flag < 2 ^ 5) :
    decodeHold (setPdcTimeReg hold rech flag) = hold ∧
    decodeRech (setPdcTimeReg hold rech flag) = rech ∧
    decodeFlag (setPdcTimeReg hold rech flag) = flag := by
  have hw : setPdcTimeReg hold rech flag =
      hold + rech * 64 + flag * 2048 := by
    unfold setPdcTimeReg
    rw [int_shiftLeft_6, int_shiftLeft_11, int_land_63, int_land_31,
      int_land_31]
    rw [Int.emod_eq_of_lt hh0 (by omega), Int.emod_eq_of_lt hr0 (by omega),
      Int.emod_eq_of_lt hf0 (by omega)]
  have hwpos : 0 ≤ setPdcTimeReg hold rech flag := by
    rw [hw]
    omega
  refine ⟨?_, ?_, ?_⟩
  · unfold decodeHold
    rw [int_land_63, hw]
    omega
  · unfold decodeRech
    rw [int_shiftRight_6 _ hwpos, int_land_31, hw]
    omega
  · unfold decodeFlag
    rw [int_shiftRight_11 _ hwpos, int_land_31, hw]
    omega

/-- Witness for C9: the spec's Example 3 values `hold=50, rech=10, flag=2`
round-trip through the encoder. -/
theorem setPdcTimeReg_roundTrip_witness :
    decodeHold (setPdcTimeReg 50 10 2) = 50 ∧
    decodeRech (setPdcTimeReg 50 10 2) = 10 ∧
    decodeFlag (setPdcTimeReg 50 10 2) = 2 :=
  setPdcTimeReg_roundTrip 50 10 2 (by norm_num) (by norm_num) (by norm_num)
    (by norm_num) (by norm_num) (by norm_num)
